import Mathlib

/-!
Shallow embedding of the interval-algebra core of AutoCut
(`src/autocut/edit.py`): the silence-cut normalizer `get_silence_cuts`
(post-detector part) and the timeline builder `fill_sequence`.

Modelling conventions:
* Python ints are `ℤ`; Python floats appearing here (seconds, `min_length`)
  are `ℚ`; `int(x)` is truncation toward zero (`pyInt`).
* A Python exception escaping the function is modelled by `Option`:
  `none` means the call raises and returns no value.
* Python lists built element by element are Lean lists; a "cut" list that
  may or may not have received its third component (the quiet flag) is a
  triple with an `Option Bool` third component.
-/

namespace AutoCut

/-- Python `int()` on a rational: truncation toward zero. -/
def pyInt (q : ℚ) : ℤ := if 0 ≤ q then ⌊q⌋ else ⌈q⌉

/-- Python `sorted` on a two-element int list, as a pair. -/
def sort2 (a b : ℤ) : ℤ × ℤ := if a ≤ b then (a, b) else (b, a)

/-- One parsed line of the silence detector's output: a `silence_start` or a
`silence_end` timestamp in seconds (`edit.py` lines 189-191). -/
inductive SEvent
  | start (sec : ℚ)
  | stop (sec : ℚ)
deriving DecidableEq

/-- One entry of the Python `silence_cuts` list in `get_silence_cuts`:
created as the one-element list `[value]` on a start event, with further
values appended on end events. Nonempty by construction, hence a head plus
the appended tail. -/
structure RawCut where
  first : ℤ
  rest : List ℤ
deriving DecidableEq

/-- Python `cut[-1]`: last element of the nonempty cut list. -/
def RawCut.last (c : RawCut) : ℤ := c.rest.getLastD c.first

/-- The full Python list underlying a `RawCut` (what `tuple(cut)` captures). -/
def RawCut.toList (c : RawCut) : List ℤ := c.first :: c.rest

/-- Python `silence_cuts[-1].append(value)` (`edit.py` line 205): append to
the last element; raises `IndexError` when the list is empty. -/
def appendToLast : List RawCut → ℤ → Option (List RawCut)
  | [], _ => none
  | [c], v => some [⟨c.first, c.rest ++ [v]⟩]
  | c :: c' :: cs, v => (appendToLast (c' :: cs) v).map (fun l => c :: l)

/-- The event loop of `get_silence_cuts` (`edit.py` lines 188-205): build the
`silence_cuts` list of raw cuts from the parsed detector events. -/
def eventsLoop (frameLength : ℚ) (margin : ℤ) :
    List SEvent → List RawCut → Option (List RawCut)
  | [], acc => some acc
  | SEvent.start s :: evs, acc =>
      let v := pyInt (s / frameLength) + margin
      eventsLoop frameLength margin evs (acc ++ [⟨max 0 v, []⟩])
  | SEvent.stop s :: evs, acc =>
      let v := pyInt (s / frameLength) - margin
      match appendToLast acc v with
      | none => none
      | some acc' => eventsLoop frameLength margin evs acc'

/-- The normalization loop of `get_silence_cuts` (`edit.py` lines 207-219).
When `previous == c_start` the source executes `cuts[-1][-1] = c_end`, an
item assignment on the tuple appended by `cuts.append(tuple(cut))`, which
raises `TypeError`; modelled as `none`. -/
def normLoop : List RawCut → ℤ → List (List ℤ) → Option (List (List ℤ))
  | [], _, acc => some acc
  | c :: cs, previous, acc =>
      if previous = c.first then
        none
      else
        normLoop cs c.last (acc ++ [c.toList])

/-- The margin clamp of `get_silence_cuts` (`edit.py` lines 175-176):
`if margin > min_length / 2.0: margin = int(min_length / 2.0)`. -/
def effectiveMargin (minLength : ℚ) (margin : ℤ) : ℤ :=
  if (margin : ℚ) > minLength / 2 then pyInt (minLength / 2) else margin

/-- The pure part of `get_silence_cuts` (`edit.py` lines 157-222), taking the
parsed detector events instead of running ffmpeg: clamp the margin, build the
raw cuts from the events, then run the normalization loop. -/
def get_silence_cuts (events : List SEvent) (frameLength minLength : ℚ)
    (margin : ℤ) : Option (List (List ℤ)) :=
  let m := effectiveMargin minLength margin
  match eventsLoop frameLength m events [] with
  | none => none
  | some sc => normLoop sc (-1) []

/-- Gap-cut construction in pass 1 of `fill_sequence` (`edit.py` lines
252-265): sort the two endpoints, then append the quiet flag only when
`sum(next_cut) > 0 and next_cut[0] != next_cut[1]`; otherwise the cut stays a
two-element list (flag `none`). -/
def gapCut (minLength : ℚ) (a b : ℤ) : ℤ × ℤ × Option Bool :=
  let nc := sort2 a b
  if 0 < nc.1 + nc.2 ∧ nc.1 ≠ nc.2 then
    if ((nc.2 - nc.1 : ℤ) : ℚ) ≤ minLength then
      (nc.1, nc.2, some true)
    else
      (nc.1, nc.2, some false)
  else
    (nc.1, nc.2, none)

/-- The main loop of pass 1 of `fill_sequence` (`edit.py` lines 237-265),
without the `i == 0` leading-gap emission. The second argument models the
Python variable `end_2`, which is only bound when `silence_cuts[i + 1]`
exists: on the last interval the `except IndexError` branch reads `end_2`
from the previous iteration, and raises `UnboundLocalError` (`none`) when no
previous iteration bound it. -/
def pass1Go (dur : ℤ) (minLength : ℚ) :
    List (ℤ × ℤ) → Option ℤ → Option (List (ℤ × ℤ × Option Bool))
  | [], _ => some []
  | (s, e) :: (s2, e2) :: cs, _ =>
      match pass1Go dur minLength ((s2, e2) :: cs) (some e2) with
      | none => none
      | some tail => some ((s, e, some true) :: gapCut minLength e s2 :: tail)
  | [(s, e)], some e2p =>
      some [(s, e, some true), gapCut minLength e2p dur]
  | [(_, _)], none => none

/-- Pass 1 of `fill_sequence` (`edit.py` lines 236-265): the leading loud
gap before the first interval (emitted via `sorted([0, start])` and the
`sum(cut_range) > 0` test), followed by the main loop. -/
def fillPass1 (dur : ℤ) (minLength : ℚ) :
    List (ℤ × ℤ) → Option (List (ℤ × ℤ × Option Bool))
  | [] => some []
  | (s, e) :: cs =>
      let lead : List (ℤ × ℤ × Option Bool) :=
        if 0 < s then
          let cr := sort2 0 s
          if 0 < cr.1 + cr.2 then [(cr.1, cr.2, some false)] else []
        else []
      match pass1Go dur minLength ((s, e) :: cs) none with
      | none => none
      | some body => some (lead ++ body)

/-- The tuple unpacking `for i, (start, end, quiet) in enumerate(cuts)` of
pass 2 (`edit.py` line 270): raises `ValueError` (`none`) if any cut is
still a two-element list (flag `none`). -/
def unpack3 : List (ℤ × ℤ × Option Bool) → Option (List (ℤ × ℤ × Bool))
  | [] => some []
  | (s, e, some q) :: cs => (unpack3 cs).map (fun l => (s, e, q) :: l)
  | (_, _, none) :: _ => none

/-- The merge loop of pass 2 of `fill_sequence` (`edit.py` lines 270-287)
after the first element seeded the running segment `(pS, pE, pQ)`: extend the
running segment on equal status, flush it and restart on a status change.
When the input is exhausted the running segment is dropped, exactly as in
the source, which never flushes it after the loop. -/
def pass2Go : List (ℤ × ℤ × Bool) → ℤ → ℤ → Bool → List (ℤ × ℤ × Bool)
  | [], _, _, _ => []
  | (s, e, q) :: cs, pS, pE, pQ =>
      if pQ = q then pass2Go cs pS e pQ
      else (pS, pE, pQ) :: pass2Go cs s e q

/-- Pass 2 of `fill_sequence` (`edit.py` lines 267-289): the `i == 0`
iteration seeds the running segment, the rest of the list is merged by
`pass2Go`. -/
def pass2 : List (ℤ × ℤ × Bool) → List (ℤ × ℤ × Bool)
  | [] => []
  | (s, e, q) :: cs => pass2Go cs s e q

/-- `fill_sequence` (`edit.py` lines 225-289), with the probed media duration
(in frames) passed as the parameter `dur`: pass 1, the three-way unpacking,
then the pass 2 merge. `none` models an escaping Python exception. -/
def fill_sequence (silence_cuts : List (ℤ × ℤ)) (dur : ℤ) (minLength : ℚ) :
    Option (List (ℤ × ℤ × Bool)) :=
  match fillPass1 dur minLength silence_cuts with
  | none => none
  | some raw =>
      match unpack3 raw with
      | none => none
      | some cuts => some (pass2 cuts)

/-- Sum of segment durations of a timeline. -/
def coverSum (l : List (ℤ × ℤ × Bool)) : ℤ :=
  (l.map (fun s => s.2.1 - s.1)).sum

/-- Adjacent-segment alternation relation: the two quiet flags differ. -/
def altRel (a b : ℤ × ℤ × Bool) : Prop := a.2.2 ≠ b.2.2

end AutoCut

namespace AutoCut

/-- C1: on the valid input `[(20,30),(35,50)]` with `total_duration = 100`
and `min_length = 10` (sorted, non-overlapping, last end `50 ≤ 100`),
`fill_sequence` returns `[(0,20,F),(20,50,T)]`: the merge loop never flushes
the running segment when the input is exhausted, so the final segment
`(50,100,F)` is dropped and the durations sum to `50`, not `100`. -/
theorem fill_sequence_drops_last_segment :
    fill_sequence [(20, 30), (35, 50)] 100 10 =
      some [(0, 20, false), (20, 50, true)] ∧
    coverSum [(0, 20, false), (20, 50, true)] ≠ 100 := by decide

/-- C2: on an empty list of silence intervals, `fill_sequence` returns the
empty timeline, not the single loud segment `[(0, total_duration, F)]`:
both pass 1 and pass 2 iterate over empty lists. -/
theorem fill_sequence_empty :
    fill_sequence [] 100 10 = some [] := by decide

/-- C3: on exactly one silence interval `[40,60)` with `total_duration = 100`
and `min_length = 10`, `fill_sequence` raises (Python `UnboundLocalError`:
the `except IndexError` branch reads `end_2`, which no previous iteration
bound) instead of returning `[(0,40,F),(40,60,T),(60,100,F)]`. -/
theorem fill_sequence_single_interval_crashes :
    fill_sequence [(40, 60)] 100 10 = none := by decide

/-- C4: on detector events producing the back-to-back raw intervals
`[10,20)` and `[20,30)` (frame_length 1, margin 0), the coalescing branch of
`get_silence_cuts` raises (Python `TypeError`: `cuts[-1][-1] = c_end` is an
item assignment on the tuple stored by `cuts.append(tuple(cut))`) instead of
merging them into `[10,30)`. -/
theorem get_silence_cuts_coalesce_crashes :
    get_silence_cuts
      [SEvent.start 10, SEvent.stop 20, SEvent.start 20, SEvent.stop 30]
      1 24 0 = none := by
  norm_num [get_silence_cuts, effectiveMargin, pyInt, eventsLoop, appendToLast,
    normLoop, RawCut.last, RawCut.toList]

/-- C5: for non-negative `min_length` and `margin`, the effective margin
used by `get_silence_cuts` equals `min margin ⌊min_length / 2⌋`. -/
theorem effectiveMargin_eq_min (minLength : ℚ) (margin : ℤ)
    (hml : 0 ≤ minLength) (_hm : 0 ≤ margin) :
    effectiveMargin minLength margin = min margin ⌊minLength / 2⌋ := by
  have h2 : (0 : ℚ) ≤ minLength / 2 := by positivity
  by_cases hc : (margin : ℚ) > minLength / 2
  · have hfl : ⌊minLength / 2⌋ ≤ margin := by
      have h := lt_of_le_of_lt (Int.floor_le (minLength / 2)) hc
      exact_mod_cast h.le
    simp only [effectiveMargin, pyInt, if_pos hc, if_pos h2]
    exact (min_eq_right hfl).symm
  · push_neg at hc
    have hfl : margin ≤ ⌊minLength / 2⌋ := Int.le_floor.mpr hc
    simp only [effectiveMargin, gt_iff_lt, not_lt.mpr hc, if_false]
    exact (min_eq_left hfl).symm

/-- C5 witness: spec scenario 5, `min_length = 6`, `margin = 5`: the
effective margin clamps to `3 = min 5 ⌊6/2⌋`. -/
theorem effectiveMargin_eq_min_witness :
    effectiveMargin 6 5 = min 5 ⌊(6 : ℚ) / 2⌋ :=
  effectiveMargin_eq_min 6 5 (by norm_num) (by norm_num)

/-- C6: on the touching intervals `[(10,20),(20,30)]` the zero-length gap
`[20,20]` IS emitted by pass 1, as a two-element cut with no quiet flag
(only the flag append is guarded by the zero-length test, not the
`cuts.append(next_cut)`), and the pass 2 unpacking of that malformed cut
then raises (Python `ValueError`), so the whole call fails. -/
theorem fill_sequence_zero_gap_emitted :
    fillPass1 100 10 [(10, 20), (20, 30)] =
      some [(0, 10, some false), (10, 20, some true), (20, 20, none),
            (20, 30, some true), (30, 100, some false)] ∧
    fill_sequence [(10, 20), (20, 30)] 100 10 = none := by decide

/-- Helper: the merge loop's output is alternating, and its first flushed
segment carries the running status `pQ`. -/
theorem pass2Go_alt (cs : List (ℤ × ℤ × Bool)) :
    ∀ (pS pE : ℤ) (pQ : Bool),
      List.Chain' altRel (pass2Go cs pS pE pQ) ∧
      ∀ x, (pass2Go cs pS pE pQ).head? = some x → x.2.2 = pQ := by
  induction cs with
  | nil => intro pS pE pQ; simp [pass2Go]
  | cons c cs ih =>
      obtain ⟨s, e, q⟩ := c
      intro pS pE pQ
      by_cases hq : pQ = q
      · subst hq
        simpa [pass2Go] using ih pS e pQ
      · simp only [pass2Go, if_neg hq]
        refine ⟨?_, ?_⟩
        · rw [List.chain'_cons']
          refine ⟨?_, (ih s e q).1⟩
          intro y hy
          have h2 := (ih s e q).2 y (Option.mem_def.mp hy)
          simp only [altRel, h2]
          exact hq
        · intro x hx
          simp only [List.head?_cons, Option.some.injEq] at hx
          rw [← hx]

/-- Helper: the full pass 2 merge always outputs an alternating list. -/
theorem pass2_alt (m : List (ℤ × ℤ × Bool)) :
    List.Chain' altRel (pass2 m) := by
  cases m with
  | nil => simp [pass2]
  | cons c cs =>
      obtain ⟨s, e, q⟩ := c
      exact (pass2Go_alt cs s e q).1

/-- C7: whenever `fill_sequence` returns a timeline (rather than raising),
no two adjacent segments of it share the same quiet flag. -/
theorem fill_sequence_alternation (cuts : List (ℤ × ℤ)) (dur : ℤ)
    (minLength : ℚ) (l : List (ℤ × ℤ × Bool))
    (h : fill_sequence cuts dur minLength = some l) :
    List.Chain' altRel l := by
  unfold fill_sequence at h
  split at h
  · exact absurd h (by simp)
  · split at h
    · exact absurd h (by simp)
    · simp only [Option.some.injEq] at h
      rw [← h]
      exact pass2_alt _

/-- C7 witness: the output on `[(20,30),(35,50)]` with duration 100 and
min_length 10 alternates. -/
theorem fill_sequence_alternation_witness :
    List.Chain' altRel [(0, 20, false), (20, 50, true)] :=
  fill_sequence_alternation [(20, 30), (35, 50)] 100 10
    [(0, 20, false), (20, 50, true)] (by decide)

/-- C8: the pass 2 merge is not idempotent: `[(0,20,F)]` is itself a merge
output (of `[(0,20,F),(20,50,T)]`), and re-running the merge on it returns
`[]`, not the identical sequence — the running segment is again dropped at
end of input. -/
theorem pass2_not_idempotent :
    pass2 [(0, 20, false), (20, 50, true)] = [(0, 20, false)] ∧
    pass2 [(0, 20, false)] = [] := by decide

/-- C9 counterexample: the claim as stated is false. In the event stream
start 10, end 20, end 30 the second end event has no prior OPEN start (the
only start was already closed by the first end), yet `get_silence_cuts`
does not fail: `silence_cuts[-1].append(value)` silently extends the
already-closed cut and the call returns the malformed list `[[10,20,30]]`. -/
theorem get_silence_cuts_end_after_closed :
    get_silence_cuts [SEvent.start 10, SEvent.stop 20, SEvent.stop 30]
      1 24 0 = some [[10, 20, 30]] := by
  norm_num [get_silence_cuts, effectiveMargin, pyInt, eventsLoop, appendToLast,
    normLoop, RawCut.last, RawCut.toList]

/-- C9 (amended): when an end event arrives before any start event has
occurred, the event loop of `get_silence_cuts` fails at that event (Python
`IndexError` on `silence_cuts[-1]`): `get_silence_cuts` returns no interval
list at all — not a partial one — regardless of the events that follow. An
end event whose preceding interval is already closed is not detected. -/
theorem get_silence_cuts_end_before_start
    (evs₁ evs₂ : List SEvent) (v fl minLength : ℚ) (margin : ℤ)
    (h : ∀ e ∈ evs₁, ∀ s, e ≠ SEvent.start s) :
    get_silence_cuts (evs₁ ++ SEvent.stop v :: evs₂) fl minLength margin =
      none := by
  cases evs₁ with
  | nil => simp [get_silence_cuts, eventsLoop, appendToLast]
  | cons e evs =>
      cases e with
      | start s => exact absurd rfl (h _ (List.mem_cons_self _ _) s)
      | stop s => simp [get_silence_cuts, eventsLoop, appendToLast]

/-- C9 witness: a lone end event makes `get_silence_cuts` fail. -/
theorem get_silence_cuts_end_before_start_witness :
    get_silence_cuts [SEvent.stop 1] 1 24 0 = none :=
  get_silence_cuts_end_before_start [] [] 1 1 24 0 (by simp)

/-- Helper: with `a ≤ b` the gap cut keeps the endpoints in order. -/
theorem gapCut_of_le (minLength : ℚ) (a b : ℤ) (h : a ≤ b) :
    gapCut minLength a b = (a, b, (gapCut minLength a b).2.2) := by
  simp only [gapCut, sort2, if_pos h]
  split
  · split <;> rfl
  · rfl

/-- Helper for C10: on a list of at least two intervals, the pass 1 loop
always succeeds, and its last emitted cut is the gap from the last
interval's end to the duration — whatever the `end_2` state was on entry,
because the iteration before the last rebinds `end_2` to the last
interval's own end. -/
theorem pass1Go_last (dur : ℤ) (minLength : ℚ) (l : List (ℤ × ℤ)) :
    ∀ (a b : ℤ × ℤ) (e2 : Option ℤ) (c : ℤ × ℤ),
      (b :: l).getLast? = some c →
      ∃ res, pass1Go dur minLength (a :: b :: l) e2 = some res ∧
        res.getLast? = some (gapCut minLength c.2 dur) := by
  induction l with
  | nil =>
      intro a b e2 c hc
      obtain ⟨a1, a2⟩ := a
      obtain ⟨b1, b2⟩ := b
      simp only [List.getLast?_singleton, Option.some.injEq] at hc
      subst hc
      refine ⟨[(a1, a2, some true), gapCut minLength a2 b1,
               (b1, b2, some true), gapCut minLength b2 dur], ?_, ?_⟩
      · simp [pass1Go]
      · rfl
  | cons x l ih =>
      intro a b e2 c hc
      obtain ⟨a1, a2⟩ := a
      obtain ⟨b1, b2⟩ := b
      rw [List.getLast?_cons_cons] at hc
      obtain ⟨res₂, hres₂, hlast₂⟩ := ih (b1, b2) x (some b2) c hc
      refine ⟨(a1, a2, some true) :: gapCut minLength a2 b1 :: res₂, ?_, ?_⟩
      · obtain ⟨x1, x2⟩ := x
        have step : pass1Go dur minLength
            ((a1, a2) :: (b1, b2) :: (x1, x2) :: l) e2 =
            match pass1Go dur minLength ((b1, b2) :: (x1, x2) :: l)
                (some b2) with
            | none => none
            | some tail =>
                some ((a1, a2, some true) :: gapCut minLength a2 b1 :: tail) :=
          rfl
        rw [step, hres₂]
      · rw [List.getLast?_cons_cons,
            show gapCut minLength a2 b1 :: res₂ =
              [gapCut minLength a2 b1] ++ res₂ from rfl,
            List.getLast?_append, hlast₂]
        rfl

/-- C10: for every input of at least two silence intervals whose last end
is at most the duration, pass 1 of `fill_sequence` succeeds and its last
emitted cut spans exactly from the last interval's end to the duration:
the `except IndexError` fallback reads `end_2` as bound by the previous
iteration, which at that point is the last interval's own end. -/
theorem fillPass1_trailing_gap (cuts : List (ℤ × ℤ)) (dur : ℤ)
    (minLength : ℚ) (c : ℤ × ℤ)
    (h2 : 2 ≤ cuts.length) (hl : cuts.getLast? = some c) (hle : c.2 ≤ dur) :
    ∃ res q, fillPass1 dur minLength cuts = some res ∧
      res.getLast? = some (c.2, dur, q) := by
  match cuts, h2 with
  | a :: b :: l, _ =>
    rw [List.getLast?_cons_cons] at hl
    obtain ⟨res, hres, hlast⟩ := pass1Go_last dur minLength l a b none c hl
    obtain ⟨a1, a2⟩ := a
    refine ⟨(if 0 < a1 then
              (if 0 < (sort2 0 a1).1 + (sort2 0 a1).2 then
                [((sort2 0 a1).1, (sort2 0 a1).2, some false)] else [])
             else []) ++ res,
            (gapCut minLength c.2 dur).2.2, ?_, ?_⟩
    · simp only [fillPass1, hres]
    · rw [List.getLast?_append, hlast, gapCut_of_le minLength c.2 dur hle]
      rfl

/-- C10 witness: on `[(22,38),(62,63)]` with duration 100, pass 1 succeeds
and its last cut is `(63, 100, _)`. -/
theorem fillPass1_trailing_gap_witness :
    ∃ res q, fillPass1 100 10 [(22, 38), (62, 63)] = some res ∧
      res.getLast? = some (63, 100, q) :=
  fillPass1_trailing_gap [(22, 38), (62, 63)] 100 10 (62, 63)
    (by decide) (by decide) (by decide)

end AutoCut
